import Mathlib

/-!
Shallow embedding of `cli/helptext.go` from the go-ipfs-cmds repository.

Go strings are modelled as Lean `String` (lengths counted in characters;
all concrete inputs in this development are ASCII, where Go's byte length
agrees).  The external `cmds.Command` data type (from the commands
package, not part of this repository's source) is modelled from the
spec's data model: `Description`, `Help`, the three override fields,
`Arguments`, `Options` and `Subcommands`.  Go's `Subcommands` map is
embedded as an association list; the Go map iteration order is
non-deterministic, here entries are processed in list order.
-/

set_option autoImplicit false

/-- Go `cmds.Argument`: `Name`, `Required`, `Variadic`, `Description`. -/
structure Argument where
  Name : String
  Required : Bool
  Variadic : Bool
  Description : String
deriving DecidableEq

/-- Go `cmds.Option`: `Names` (alias list), `Type` (called `Type'` here
because `Type` is a Lean keyword), `Description`. -/
structure Opt where
  Names : List String
  Type' : String
  Description : String
deriving DecidableEq

/-- Go `cmds.Command` (external data model, read-only for this core).
`Subcommands` is the name-to-child mapping as an association list. -/
inductive Command : Type where
  | mk (Description Help ArgumentHelp OptionHelp SubcommandHelp : String)
       (Arguments : List Argument) (Options : List Opt)
       (Subcommands : List (String × Command)) : Command

def Command.Description : Command → String
  | .mk d _ _ _ _ _ _ _ => d

def Command.Help : Command → String
  | .mk _ h _ _ _ _ _ _ => h

def Command.ArgumentHelp : Command → String
  | .mk _ _ a _ _ _ _ _ => a

def Command.OptionHelp : Command → String
  | .mk _ _ _ o _ _ _ _ => o

def Command.SubcommandHelp : Command → String
  | .mk _ _ _ _ s _ _ _ => s

def Command.Arguments : Command → List Argument
  | .mk _ _ _ _ _ args _ _ => args

def Command.Options : Command → List Opt
  | .mk _ _ _ _ _ _ opts _ => opts

def Command.Subcommands : Command → List (String × Command)
  | .mk _ _ _ _ _ _ _ subs => subs

/-- Replace the `Options` list of a command, leaving every other field
unchanged (used to state that a render does not depend on the options). -/
def Command.withOptions : Command → List Opt → Command
  | .mk d h ah oh sh args _ subs, opts => .mk d h ah oh sh args opts subs

/-- Modelled from the spec: the single error kind, CommandNotFound,
raised when path resolution fails at a segment (spec sections 4.5 and 7);
`cmds.Command.Get` itself lives in the external commands package. -/
inductive CmdError where
  | notFound (segment : String) : CmdError
deriving DecidableEq

/-- Lookup of a subcommand by name in the association list. -/
def lookupSub : List (String × Command) → String → Option Command
  | [], _ => none
  | (n, c) :: rest, s => if n = s then some c else lookupSub rest s

/-- Modelled from the spec: `root.Get(path)` — resolve the Command at the
given path from the root; fail with a NotFound error if any path segment
does not exist (spec section 4.5 step 1). -/
def getCmd : List String → Command → Except CmdError Command
  | [], c => .ok c
  | s :: rest, c =>
    match lookupSub c.Subcommands s with
    | some sub => getCmd rest sub
    | none => .error (.notFound s)

/-- Go constant `indentStr = "    "` (four spaces). -/
def indentStr : String := "    "

/-- Character-list core of Go `strings.Replace(line, "\n", "\n"+prefix, -1)`:
the pattern is the single character newline, so the replacement is
per-character. -/
def replaceNl : List Char → List Char → List Char
  | [], _ => []
  | c :: rest, p =>
    if c = '\n' then '\n' :: (p ++ replaceNl rest p)
    else c :: replaceNl rest p

/-- Go `indentString(line, prefix)`: every newline is followed by the
prefix, i.e. every line except the first gains the prefix. -/
def indentString (line : String) (p : String) : String :=
  ⟨replaceNl line.data p.data⟩

/-- Go `argUsageText(arg)`: `<name>` when required, `[<name>]` when
optional, with `...` appended when variadic. -/
def argUsageText (arg : Argument) : String :=
  let s := arg.Name
  let s := if arg.Required then "<" ++ s ++ ">" else "[<" ++ s ++ ">]"
  if arg.Variadic then s ++ "..." else s

/-- Go `usageText(cmd)`: the per-argument usage strings joined by single
spaces. -/
def usageText (cmd : Command) : String :=
  String.intercalate " " (cmd.Arguments.map argUsageText)

/-- Go `argumentText(cmd)`: one block per argument — usage-decorated name,
newline, description, the block indented and given a trailing newline. -/
def argumentText (cmd : Command) : List String :=
  cmd.Arguments.map (fun arg =>
    indentString (argUsageText arg ++ "\n" ++ arg.Description) "    " ++ "\n")

/-- Go `strings.Repeat(" ", n)`: a run of `n` space characters. -/
def spaces (n : Nat) : String := ⟨List.replicate n ' '⟩

/-- The `longest` computation of Go `align`: maximum length over the
lines, starting from 0. -/
def maxLen (lines : List String) : Nat :=
  lines.foldl (fun m l => max m l.length) 0

/-- The per-line body of Go `align`: a non-empty line is right-padded
with spaces up to length `M`; an empty line is left untouched. -/
def padTo (M : Nat) (l : String) : String :=
  if 0 < l.length then l ++ spaces (M - l.length) else l

/-- Go `align(lines)`: right-pad every non-empty line with spaces to the
length of the longest line; empty lines are left untouched. -/
def align (lines : List String) : List String :=
  lines.map (padTo (maxLen lines))

/-- The `prefix` computation of Go `subcommandText`: root name, a space,
the space-joined path, plus one more trailing space when the path is
non-empty. -/
def subPfx (rootName : String) (path : List String) : String :=
  let p := rootName ++ " " ++ String.intercalate " " path
  if 0 < path.length then p ++ " " else p

/-- Go `subcommandText(cmd, rootName, path)`: one block per subcommand —
`prefix + name + " " + usage`, newline, description, indented, trailing
newline.  Entries in association-list order (the Go map order is
non-deterministic). -/
def subcommandText (cmd : Command) (rootName : String) (path : List String) : List String :=
  cmd.Subcommands.map (fun ns =>
    indentString (subPfx rootName path ++ ns.1 ++ " " ++ usageText ns.2 ++ "\n" ++ ns.2.Description) "    " ++ "\n")

/-- Maximum number of aliases over a list of options (bounds the number
of passes of the Go `optionText` name loop). -/
def maxNames (options : List Opt) : Nat :=
  options.foldl (fun m o => max m o.Names.length) 0

/-- One pass (index `j`) of the Go `optionText` name loop body: for the
`i`-th option, append `-names[j]` when the option has an alias at index
`j`, then `", "` when it has a further alias at `j+1`.  Missing lines are
treated as `""` (Go appends `""` entries on demand). -/
def optPass (j : Nat) : List Opt → List String → List String
  | [], _ => []
  | o :: os, ls =>
    let l := ls.headD ""
    let l := if j + 1 ≤ o.Names.length then l ++ "-" ++ o.Names.getD j "" else l
    let l := if j + 1 < o.Names.length then l ++ ", " else l
    l :: optPass j os ls.tail

/-- The `done` flag computed during pass `j` of Go `optionText`: true
exactly when no option still has an alias beyond index `j`. -/
def optDone (options : List Opt) (j : Nat) : Bool :=
  options.all (fun o => o.Names.length ≤ j + 1)

/-- The Go `optionText` name loop: run passes `j = 0, 1, ...`, aligning
the partial lines between passes; when a pass reports `done` its result
is returned without a further alignment (exactly as the Go `break`).
`fuel` bounds the passes; `maxNames options + 1` always suffices. -/
def optLoop : Nat → List Opt → Nat → List String → List String
  | 0, _, _, lines => lines
  | fuel + 1, options, j, lines =>
    let next := optPass j options lines
    if optDone options j then next
    else optLoop fuel options (j + 1) (align next)

/-- Go `optionText(cmd...)`: concatenate the options of all given
commands, build the name column by aligned passes, append the ` (type)`
column and re-align, then append descriptions, indent, and add trailing
newlines. -/
def optionText (cmds : List Command) : List String :=
  let options := (cmds.map Command.Options).flatten
  let named := optLoop (maxNames options + 1) options 0 []
  let typed := align (List.zipWith (fun l o => l ++ " (" ++ o.Type' ++ ")") named options)
  List.zipWith (fun l o => indentString (l ++ "\n" ++ o.Description) "    " ++ "\n") typed options

/-- The Go `helpFields` struct fed to the templates. -/
structure helpFields where
  Indent : String
  Path : String
  ArgUsage : String
  Tagline : String
  Arguments : String
  Options : String
  Subcommands : String
  Description : String
deriving DecidableEq

/-- The apostrophe character as a string (used by the hint line). -/
def squote : String := String.singleton (Char.ofNat 39)

/-- The trailing hint line of the SUBCOMMANDS section of the
`longHelpFormat` template. -/
def hintLine (path : String) : String :=
  "Use " ++ squote ++ path ++ " <subcmd> --help" ++ squote
    ++ " for more information about each command."

/-- The `usageFormat` template: path, optional space-separated arg usage,
`" - "`, tagline. -/
def renderUsage (f : helpFields) : String :=
  f.Path ++ (if f.ArgUsage = "" then "" else " " ++ f.ArgUsage) ++ " - " ++ f.Tagline

/-- The `longHelpFormat` template, rendered: a leading newline, the
indented usage line, a blank line, then the four conditional sections
(each emitted only when its field is non-empty, the SUBCOMMANDS section
carrying the extra hint line), and a final newline. -/
def renderLongHelp (f : helpFields) : String :=
  "\n" ++ f.Indent ++ renderUsage f ++ "\n\n"
    ++ (if f.Arguments = "" then "" else
        "ARGUMENTS:\n\n" ++ f.Indent ++ f.Arguments ++ "\n\n")
    ++ (if f.Options = "" then "" else
        "OPTIONS:\n\n" ++ f.Indent ++ f.Options ++ "\n\n")
    ++ (if f.Subcommands = "" then "" else
        "SUBCOMMANDS:\n\n" ++ f.Indent ++ f.Subcommands ++ "\n\n"
          ++ f.Indent ++ hintLine f.Path ++ "\n\n")
    ++ (if f.Description = "" then "" else
        "DESCRIPTION:\n\n" ++ f.Indent ++ f.Description ++ "\n\n")
    ++ "\n"

/-- The field construction of Go `LongHelp` for an already-resolved
command: overrides taken when non-empty, generators otherwise, then the
four block fields indented by `indentStr`. -/
def longHelpFields (rootName : String) (path : List String) (cmd : Command) : helpFields :=
  let pathStr := rootName ++ (if 0 < path.length then " " ++ String.intercalate " " path else "")
  { Indent := indentStr
    Path := pathStr
    ArgUsage := usageText cmd
    Tagline := cmd.Description
    Arguments := indentString
      (if cmd.ArgumentHelp = "" then String.intercalate "\n" (argumentText cmd)
       else cmd.ArgumentHelp) indentStr
    Options := indentString
      (if cmd.OptionHelp = "" then String.intercalate "\n" (optionText [cmd])
       else cmd.OptionHelp) indentStr
    Subcommands := indentString
      (if cmd.SubcommandHelp = "" then String.intercalate "\n" (subcommandText cmd rootName path)
       else cmd.SubcommandHelp) indentStr
    Description := indentString cmd.Help indentStr }

/-- Go `LongHelp(rootName, root, path, out)`: resolve the command (error
without any output on failure), build the fields, render the template.
The returned string is the full text written to the output sink. -/
def LongHelp (rootName : String) (root : Command) (path : List String) : Except CmdError String :=
  match getCmd path root with
  | .error e => .error e
  | .ok cmd => .ok (renderLongHelp (longHelpFields rootName path cmd))

/-- Number of newline characters in a string (observation function used
to state the line-count properties of the spec). -/
def countNl (s : String) : Nat := s.data.count '\n'

/-- Number of lines of a text, as the spec counts them: newline count
plus one. -/
def lineCount (s : String) : Nat := countNl s + 1

/-- Split a character list at newline characters (observation function:
the list of lines of a text; the newline separators are dropped). -/
def splitNl : List Char → List (List Char)
  | [] => [[]]
  | c :: rest =>
    if c = '\n' then [] :: splitNl rest
    else
      match splitNl rest with
      | [] => [[c]]
      | l :: ls => (c :: l) :: ls

/-! ### Theorems for the claims -/

/-- C6: the single-argument usage renderer produces `<name>` for a
required non-variadic argument, `[<name>]` for an optional non-variadic
argument, and for a variadic argument it appends `...` to the
required/optional rendering. -/
theorem argUsageText_spec (a : Argument) :
    (a.Required = true → a.Variadic = false → argUsageText a = "<" ++ a.Name ++ ">") ∧
    (a.Required = false → a.Variadic = false → argUsageText a = "[<" ++ a.Name ++ ">]") ∧
    (a.Variadic = true →
      argUsageText a = argUsageText ⟨a.Name, a.Required, false, a.Description⟩ ++ "...") := by
  rcases a with ⟨n, req, var, d⟩
  cases req <;> cases var <;> simp [argUsageText]

/-- Witness for C6: a required variadic argument named `file` renders as
`<file>...`. -/
theorem argUsageText_spec_witness :
    argUsageText ⟨"file", true, true, ""⟩ = "<file>..." := by
  have h := (argUsageText_spec ⟨"file", true, true, ""⟩).2.2 rfl
  rw [h]
  rfl

/-- C8: a command with zero arguments has empty arg-usage, and its
rendered usage line is `<path> - <tagline>` with single spaces around the
dash (the arg-usage segment and its separating space are omitted). -/
theorem usage_no_args (rootName : String) (path : List String) (cmd : Command)
    (h : cmd.Arguments = []) :
    usageText cmd = "" ∧
    (longHelpFields rootName path cmd).ArgUsage = "" ∧
    renderUsage (longHelpFields rootName path cmd) =
      (longHelpFields rootName path cmd).Path ++ " - " ++ cmd.Description := by
  have hu : usageText cmd = "" := by
    unfold usageText
    rw [h]
    rfl
  refine ⟨hu, by simp [longHelpFields, hu], ?_⟩
  simp [renderUsage, longHelpFields, hu]

/-- Witness for C8 at a concrete zero-argument command. -/
theorem usage_no_args_witness :
    usageText (Command.mk "t" "" "" "" "" [] [] []) = "" ∧
    renderUsage (longHelpFields "tool" [] (Command.mk "t" "" "" "" "" [] [] [])) =
      (longHelpFields "tool" [] (Command.mk "t" "" "" "" "" [] [] [])).Path ++ " - " ++ "t" := by
  have h := usage_no_args "tool" [] (Command.mk "t" "" "" "" "" [] [] []) rfl
  exact ⟨h.1, h.2.2⟩

/-- C2: when path resolution fails (some path segment is absent from the
command tree), LongHelp returns the not-found error and produces no
output text at all (the error branch carries no rendered string). -/
theorem longHelp_notFound (rootName : String) (root : Command) (path : List String)
    (h : ∀ c, getCmd path root ≠ Except.ok c) :
    ∃ e, LongHelp rootName root path = Except.error e := by
  cases hg : getCmd path root with
  | ok c => exact absurd hg (h c)
  | error e =>
    refine ⟨e, ?_⟩
    unfold LongHelp
    rw [hg]

/-- Witness for C2: a root with no subcommands and the path `["nope"]`. -/
theorem longHelp_notFound_witness :
    ∃ e, LongHelp "tool" (Command.mk "t" "" "" "" "" [] [] []) ["nope"] =
      Except.error e := by
  refine longHelp_notFound "tool" _ ["nope"] ?_
  intro c hc
  simp [getCmd, lookupSub, Command.Subcommands] at hc

theorem length_spaces (n : Nat) : (spaces n).length = n := by
  simp [spaces, String.length]

theorem maxLen_foldl (l : List String) (a : Nat) :
    l.foldl (fun m s => max m s.length) a = max a (maxLen l) := by
  induction l generalizing a with
  | nil => simp [maxLen]
  | cons x xs ih =>
    rw [maxLen, List.foldl_cons, List.foldl_cons, ih (max a x.length), ih (max 0 x.length)]
    rw [Nat.zero_max, Nat.max_assoc]

theorem maxLen_cons (x : String) (xs : List String) :
    maxLen (x :: xs) = max x.length (maxLen xs) := by
  rw [maxLen, List.foldl_cons, maxLen_foldl, Nat.zero_max]

theorem le_maxLen {l : List String} {s : String} (h : s ∈ l) : s.length ≤ maxLen l := by
  induction l with
  | nil => cases h
  | cons x xs ih =>
    rw [maxLen_cons]
    rcases List.mem_cons.mp h with rfl | h'
    · exact Nat.le_max_left _ _
    · exact Nat.le_trans (ih h') (Nat.le_max_right _ _)

theorem maxLen_map_le {f : String → String} {l : List String} {M : Nat}
    (h : ∀ s ∈ l, (f s).length ≤ M) : maxLen (l.map f) ≤ M := by
  induction l with
  | nil => exact Nat.zero_le M
  | cons x xs ih =>
    rw [List.map_cons, maxLen_cons]
    exact Nat.max_le.mpr ⟨h x (List.mem_cons_self x xs),
      ih (fun s hs => h s (List.mem_cons_of_mem x hs))⟩

theorem le_maxLen_map {f : String → String} {l : List String}
    (h : ∀ s ∈ l, s.length ≤ (f s).length) : maxLen l ≤ maxLen (l.map f) := by
  induction l with
  | nil => exact Nat.le_refl 0
  | cons x xs ih =>
    rw [List.map_cons, maxLen_cons, maxLen_cons]
    exact max_le_max (h x (List.mem_cons_self x xs))
      (ih (fun s hs => h s (List.mem_cons_of_mem x hs)))

theorem padTo_length {l : String} {M : Nat} (h : l.length ≤ M) :
    (padTo M l).length = if 0 < l.length then M else 0 := by
  by_cases h0 : 0 < l.length
  · simp only [padTo, if_pos h0, String.length_append, length_spaces]
    omega
  · simp only [padTo, if_neg h0]
    omega

theorem maxLen_align (lines : List String) : maxLen (align lines) = maxLen lines := by
  apply Nat.le_antisymm
  · apply maxLen_map_le
    intro s hs
    rw [padTo_length (le_maxLen hs)]
    by_cases h0 : 0 < s.length
    · rw [if_pos h0]
    · rw [if_neg h0]
      exact Nat.zero_le _
  · apply le_maxLen_map
    intro s hs
    by_cases h0 : 0 < s.length
    · simp only [padTo, if_pos h0, String.length_append]
      exact Nat.le_add_right _ _
    · simp only [padTo, if_neg h0]
      exact Nat.le_refl _

/-- C9: the alignment function is idempotent — aligning an already
aligned column of lines changes nothing. -/
theorem align_idempotent (lines : List String) : align (align lines) = align lines := by
  show (align lines).map (padTo (maxLen (align lines))) = align lines
  rw [maxLen_align]
  show (lines.map (padTo (maxLen lines))).map (padTo (maxLen lines)) =
    lines.map (padTo (maxLen lines))
  rw [List.map_map]
  apply List.map_congr_left
  intro x hx
  have hle : x.length ≤ maxLen lines := le_maxLen hx
  show padTo (maxLen lines) (padTo (maxLen lines) x) = padTo (maxLen lines) x
  by_cases h0 : 0 < x.length
  · have hlen : (padTo (maxLen lines) x).length = maxLen lines := by
      rw [padTo_length hle, if_pos h0]
    have hpos : 0 < (padTo (maxLen lines) x).length := by
      rw [hlen]
      exact Nat.lt_of_lt_of_le h0 hle
    rw [padTo, if_pos hpos, hlen, Nat.sub_self]
    show padTo (maxLen lines) x ++ spaces 0 = padTo (maxLen lines) x
    rw [show spaces 0 = "" from rfl, String.append_empty]
  · have hxx : padTo (maxLen lines) x = x := by rw [padTo, if_neg h0]
    rw [hxx]
    exact hxx

theorem mem_zip_map {α β : Type} {f : α → β} {l : List α} {p : α × β}
    (h : p ∈ l.zip (l.map f)) : p.1 ∈ l ∧ p.2 = f p.1 := by
  induction l with
  | nil => cases h
  | cons x xs ih =>
    rw [List.map_cons, List.zip_cons_cons] at h
    rcases List.mem_cons.mp h with h | h
    · rw [h]
      exact ⟨List.mem_cons_self x xs, rfl⟩
    · rcases ih h with ⟨h1, h2⟩
      exact ⟨List.mem_cons_of_mem x h1, h2⟩

theorem strEmpty_iff_length {s : String} : s = "" ↔ s.length = 0 := by
  constructor
  · intro h
    rw [h]
    rfl
  · intro h
    apply String.ext
    exact List.length_eq_zero.mp h

/-- C4: alignment preserves the list length, keeps empty entries empty,
and right-pads every non-empty entry with spaces — the original content
followed by exactly enough space characters — to the maximum input
length. -/
theorem align_spec (lines : List String) (p : String × String)
    (hp : p ∈ lines.zip (align lines)) :
    (align lines).length = lines.length ∧
    (p.1 = "" → p.2 = "") ∧
    (p.1 ≠ "" → p.2.length = maxLen lines ∧
      p.2 = p.1 ++ spaces (maxLen lines - p.1.length)) := by
  obtain ⟨hmem, heq⟩ := mem_zip_map hp
  refine ⟨List.length_map _ _, ?_, ?_⟩
  · intro h1
    rw [heq, h1]
    rfl
  · intro h1
    have h0 : 0 < p.1.length :=
      Nat.pos_of_ne_zero (fun hz => h1 (strEmpty_iff_length.mpr hz))
    constructor
    · rw [heq, padTo_length (le_maxLen hmem), if_pos h0]
    · rw [heq, padTo, if_pos h0]

/-- Witness for C4 at the concrete column `["ab", "", "c"]`: the entry
`"c"` becomes `"c "` — itself plus one space. -/
theorem align_spec_witness :
    (align ["ab", "", "c"]).length = (["ab", "", "c"] : List String).length ∧
    ("c " : String).length = maxLen ["ab", "", "c"] ∧
    "c " = "c" ++ spaces (maxLen ["ab", "", "c"] - ("c" : String).length) := by
  have h := align_spec ["ab", "", "c"] ("c", "c ") (by decide)
  exact ⟨h.1, h.2.2 (by decide)⟩

theorem splitNl_ne_nil (l : List Char) : splitNl l ≠ [] := by
  induction l with
  | nil => simp [splitNl]
  | cons c rest ih =>
    unfold splitNl
    split
    · simp
    · split
      · simp
      · simp

theorem count_replaceNl (l p : List Char) (hp : '\n' ∉ p) :
    (replaceNl l p).count '\n' = l.count '\n' := by
  induction l with
  | nil => rfl
  | cons c rest ih =>
    unfold replaceNl
    by_cases h : c = '\n'
    · rw [if_pos h, h]
      simp [List.count_cons, List.count_append, ih, List.count_eq_zero.mpr hp]
    · rw [if_neg h]
      simp [List.count_cons, ih, h]

theorem splitNl_append_no_nl (a : List Char) (ha : '\n' ∉ a) (b : List Char)
    (hd : List Char) (tl : List (List Char)) (h : splitNl b = hd :: tl) :
    splitNl (a ++ b) = (a ++ hd) :: tl := by
  induction a with
  | nil => simpa using h
  | cons c a' ih =>
    have hc : c ≠ '\n' := fun hcc => ha (hcc ▸ List.mem_cons_self c a')
    have ha' : '\n' ∉ a' := fun hm => ha (List.mem_cons_of_mem c hm)
    show splitNl (c :: (a' ++ b)) = ((c :: a') ++ hd) :: tl
    unfold splitNl
    rw [if_neg hc, ih ha']
    rfl

theorem replaceNl_tail_starts (l p : List Char) (hp : '\n' ∉ p) :
    ∀ x ∈ (splitNl (replaceNl l p)).tail, ∃ t, p ++ t = x := by
  induction l with
  | nil =>
    intro x hx
    simp [replaceNl, splitNl] at hx
  | cons c rest ih =>
    intro x hx
    obtain ⟨hd, tl, hs⟩ : ∃ hd tl, splitNl (replaceNl rest p) = hd :: tl := by
      cases hsp : splitNl (replaceNl rest p) with
      | nil => exact absurd hsp (splitNl_ne_nil _)
      | cons hd tl => exact ⟨hd, tl, rfl⟩
    by_cases h : c = '\n'
    · have h3 : splitNl (replaceNl (c :: rest) p) = [] :: (p ++ hd) :: tl := by
        unfold replaceNl
        rw [if_pos h]
        unfold splitNl
        rw [if_pos rfl, splitNl_append_no_nl p hp _ hd tl hs]
      rw [h3] at hx
      rcases List.mem_cons.mp hx with rfl | hx'
      · exact ⟨hd, rfl⟩
      · apply ih x
        rw [hs]
        exact hx'
    · have h3 : splitNl (replaceNl (c :: rest) p) = (c :: hd) :: tl := by
        unfold replaceNl
        rw [if_neg h]
        unfold splitNl
        rw [if_neg h, hs]
      rw [h3] at hx
      apply ih x
      rw [hs]
      exact hx

/-- Counterexample for C5 as stated: with the prefix `"\n"` (a prefix
string containing a newline), the indentation function does not preserve
the number of lines — `"a\nb"` has 2 lines but the result has 3. -/
theorem indentString_newline_prefix_cex :
    lineCount (indentString "a\nb" "\n") ≠ lineCount "a\nb" := by decide

/-- C5 (amended): for every text and every prefix containing no newline
character, indentation preserves the line count (newline count plus one)
and every line except the first starts with the prefix. -/
theorem indentString_lines (s p : String) (hp : '\n' ∉ p.data) :
    lineCount (indentString s p) = lineCount s ∧
    ∀ x ∈ (splitNl (indentString s p).data).tail, ∃ t, p.data ++ t = x := by
  constructor
  · show (replaceNl s.data p.data).count '\n' + 1 = s.data.count '\n' + 1
    rw [count_replaceNl _ _ hp]
  · intro x hx
    exact replaceNl_tail_starts s.data p.data hp x hx

/-- Witness for C5 at the text `"a\nb"` and the prefix `"  "`: the line
count is preserved and the second line of the result is `"  b"`, which
starts with the prefix. -/
theorem indentString_lines_witness :
    lineCount (indentString "a\nb" "  ") = lineCount "a\nb" ∧
    ∃ t, ("  " : String).data ++ t = ("  b" : String).data := by
  have h := indentString_lines "a\nb" "  " (by decide)
  refine ⟨h.1, h.2 ("  b" : String).data ?_⟩
  decide

theorem data_mk (l : List Char) : (String.mk l).data = l := rfl

theorem data_nl : ("\n" : String).data = ['\n'] := rfl

theorem data_space : (" " : String).data = [' '] := rfl

theorem data_empty : ("" : String).data = [] := rfl

theorem replaceNl_append (a b p : List Char) :
    replaceNl (a ++ b) p = replaceNl a p ++ replaceNl b p := by
  induction a with
  | nil => rfl
  | cons c a' ih =>
    show replaceNl (c :: (a' ++ b)) p = replaceNl (c :: a') p ++ replaceNl b p
    by_cases h : c = '\n'
    · simp [replaceNl, h, ih, List.append_assoc]
    · simp [replaceNl, h, ih]

theorem replaceNl_of_not_mem (a p : List Char) (h : '\n' ∉ a) : replaceNl a p = a := by
  induction a with
  | nil => rfl
  | cons c a' ih =>
    have hc : c ≠ '\n' := fun hcc => h (hcc ▸ List.mem_cons_self c a')
    have h' : '\n' ∉ a' := fun hm => h (List.mem_cons_of_mem c hm)
    simp [replaceNl, hc, ih h']

theorem replaceNl_eq_nil {l p : List Char} (h : replaceNl l p = []) : l = [] := by
  cases l with
  | nil => rfl
  | cons c rest =>
    exfalso
    unfold replaceNl at h
    by_cases hc : c = '\n'
    · rw [if_pos hc] at h
      exact List.cons_ne_nil _ _ h
    · rw [if_neg hc] at h
      exact List.cons_ne_nil _ _ h

theorem indentString_eq_empty {s p : String} (h : indentString s p = "") : s = "" := by
  apply String.ext
  show s.data = []
  exact replaceNl_eq_nil (congrArg String.data h)

/-- C3: when `OptionHelp` is a non-empty string the render never consults
the command's option list (the fields are unchanged under any replacement
of the options), the Options field is exactly the explicit string after
one application of indentation, and the rendered output contains the
OPTIONS section built from exactly that indented string. -/
theorem optionHelp_override (rootName : String) (root : Command) (path : List String)
    (cmd : Command) (hget : getCmd path root = Except.ok cmd)
    (hov : cmd.OptionHelp ≠ "") :
    LongHelp rootName root path =
      Except.ok (renderLongHelp (longHelpFields rootName path cmd)) ∧
    (longHelpFields rootName path cmd).Options = indentString cmd.OptionHelp indentStr ∧
    (∀ opts, longHelpFields rootName path (cmd.withOptions opts) =
      longHelpFields rootName path cmd) ∧
    ∃ a b, renderLongHelp (longHelpFields rootName path cmd) =
      a ++ ("OPTIONS:\n\n" ++ indentStr ++ indentString cmd.OptionHelp indentStr ++ "\n\n") ++ b := by
  have hO : (longHelpFields rootName path cmd).Options = indentString cmd.OptionHelp indentStr := by
    simp [longHelpFields, hov]
  refine ⟨?_, hO, ?_, ?_⟩
  · unfold LongHelp
    rw [hget]
  · intro opts
    rcases cmd with ⟨d, h, ah, oh, sh, args, opts0, subs⟩
    have hov' : oh ≠ "" := by simpa [Command.OptionHelp] using hov
    simp [longHelpFields, Command.withOptions, Command.OptionHelp, Command.ArgumentHelp,
      Command.SubcommandHelp, Command.Description, Command.Help, Command.Arguments,
      Command.Subcommands, usageText, argumentText, subcommandText, hov']
  · have hine : (longHelpFields rootName path cmd).Options ≠ "" := by
      rw [hO]
      intro hh
      exact hov (indentString_eq_empty hh)
    have hInd : (longHelpFields rootName path cmd).Indent = indentStr := by
      simp [longHelpFields]
    refine ⟨"\n" ++ (longHelpFields rootName path cmd).Indent
        ++ renderUsage (longHelpFields rootName path cmd) ++ "\n\n"
        ++ (if (longHelpFields rootName path cmd).Arguments = "" then ""
            else "ARGUMENTS:\n\n" ++ (longHelpFields rootName path cmd).Indent
              ++ (longHelpFields rootName path cmd).Arguments ++ "\n\n"),
      (if (longHelpFields rootName path cmd).Subcommands = "" then ""
       else "SUBCOMMANDS:\n\n" ++ (longHelpFields rootName path cmd).Indent
         ++ (longHelpFields rootName path cmd).Subcommands ++ "\n\n"
         ++ (longHelpFields rootName path cmd).Indent
         ++ hintLine (longHelpFields rootName path cmd).Path ++ "\n\n")
      ++ (if (longHelpFields rootName path cmd).Description = "" then ""
          else "DESCRIPTION:\n\n" ++ (longHelpFields rootName path cmd).Indent
            ++ (longHelpFields rootName path cmd).Description ++ "\n\n")
      ++ "\n", ?_⟩
    unfold renderLongHelp
    rw [if_neg hine, hO, hInd]
    simp [String.append_assoc]

/-- Witness for C3 at a concrete command whose `OptionHelp` is
`"custom"` while it also carries an option list. -/
theorem optionHelp_override_witness :
    ∃ a b, renderLongHelp (longHelpFields "tool" []
        (Command.mk "tag" "" "" "custom" "" [] [⟨["q"], "bool", "quiet"⟩] [])) =
      a ++ ("OPTIONS:\n\n" ++ indentStr ++ indentString "custom" indentStr ++ "\n\n") ++ b := by
  have h := optionHelp_override "tool"
    (Command.mk "tag" "" "" "custom" "" [] [⟨["q"], "bool", "quiet"⟩] []) []
    (Command.mk "tag" "" "" "custom" "" [] [⟨["q"], "bool", "quiet"⟩] []) rfl (by decide)
  exact h.2.2.2

/-- C7: in the rendered long help each of the four named sections is a
block that is empty exactly when its field is empty (deleting the field
deletes the whole block — header and blank lines included — and nothing
else), the SUBCOMMANDS block carries the trailing hint line, and the
indent unit is exactly four spaces. -/
theorem longHelp_sections (f : helpFields) :
    indentStr = "    " ∧
    (∃ a blk b, renderLongHelp f = a ++ blk ++ b ∧
      renderLongHelp {f with Arguments := ""} = a ++ b ∧
      (f.Arguments = "" → blk = "") ∧
      (f.Arguments ≠ "" →
        blk = "ARGUMENTS:\n\n" ++ f.Indent ++ f.Arguments ++ "\n\n")) ∧
    (∃ a blk b, renderLongHelp f = a ++ blk ++ b ∧
      renderLongHelp {f with Options := ""} = a ++ b ∧
      (f.Options = "" → blk = "") ∧
      (f.Options ≠ "" →
        blk = "OPTIONS:\n\n" ++ f.Indent ++ f.Options ++ "\n\n")) ∧
    (∃ a blk b, renderLongHelp f = a ++ blk ++ b ∧
      renderLongHelp {f with Subcommands := ""} = a ++ b ∧
      (f.Subcommands = "" → blk = "") ∧
      (f.Subcommands ≠ "" →
        blk = "SUBCOMMANDS:\n\n" ++ f.Indent ++ f.Subcommands ++ "\n\n"
          ++ f.Indent ++ hintLine f.Path ++ "\n\n")) ∧
    (∃ a blk b, renderLongHelp f = a ++ blk ++ b ∧
      renderLongHelp {f with Description := ""} = a ++ b ∧
      (f.Description = "" → blk = "") ∧
      (f.Description ≠ "" →
        blk = "DESCRIPTION:\n\n" ++ f.Indent ++ f.Description ++ "\n\n")) := by
  refine ⟨rfl, ?_, ?_, ?_, ?_⟩
  · refine ⟨"\n" ++ f.Indent ++ renderUsage f ++ "\n\n",
      (if f.Arguments = "" then ""
       else "ARGUMENTS:\n\n" ++ f.Indent ++ f.Arguments ++ "\n\n"),
      (if f.Options = "" then ""
       else "OPTIONS:\n\n" ++ f.Indent ++ f.Options ++ "\n\n")
      ++ (if f.Subcommands = "" then ""
          else "SUBCOMMANDS:\n\n" ++ f.Indent ++ f.Subcommands ++ "\n\n"
            ++ f.Indent ++ hintLine f.Path ++ "\n\n")
      ++ (if f.Description = "" then ""
          else "DESCRIPTION:\n\n" ++ f.Indent ++ f.Description ++ "\n\n")
      ++ "\n", ?_, ?_, fun h => if_pos h, fun h => if_neg h⟩
    · simp [renderLongHelp, String.append_assoc]
    · simp [renderLongHelp, renderUsage, String.append_assoc]
  · refine ⟨"\n" ++ f.Indent ++ renderUsage f ++ "\n\n"
      ++ (if f.Arguments = "" then ""
          else "ARGUMENTS:\n\n" ++ f.Indent ++ f.Arguments ++ "\n\n"),
      (if f.Options = "" then ""
       else "OPTIONS:\n\n" ++ f.Indent ++ f.Options ++ "\n\n"),
      (if f.Subcommands = "" then ""
       else "SUBCOMMANDS:\n\n" ++ f.Indent ++ f.Subcommands ++ "\n\n"
         ++ f.Indent ++ hintLine f.Path ++ "\n\n")
      ++ (if f.Description = "" then ""
          else "DESCRIPTION:\n\n" ++ f.Indent ++ f.Description ++ "\n\n")
      ++ "\n", ?_, ?_, fun h => if_pos h, fun h => if_neg h⟩
    · simp [renderLongHelp, String.append_assoc]
    · simp [renderLongHelp, renderUsage, String.append_assoc]
  · refine ⟨"\n" ++ f.Indent ++ renderUsage f ++ "\n\n"
      ++ (if f.Arguments = "" then ""
          else "ARGUMENTS:\n\n" ++ f.Indent ++ f.Arguments ++ "\n\n")
      ++ (if f.Options = "" then ""
          else "OPTIONS:\n\n" ++ f.Indent ++ f.Options ++ "\n\n"),
      (if f.Subcommands = "" then ""
       else "SUBCOMMANDS:\n\n" ++ f.Indent ++ f.Subcommands ++ "\n\n"
         ++ f.Indent ++ hintLine f.Path ++ "\n\n"),
      (if f.Description = "" then ""
       else "DESCRIPTION:\n\n" ++ f.Indent ++ f.Description ++ "\n\n")
      ++ "\n", ?_, ?_, fun h => if_pos h, fun h => if_neg h⟩
    · simp [renderLongHelp, String.append_assoc]
    · simp [renderLongHelp, renderUsage, String.append_assoc]
  · refine ⟨"\n" ++ f.Indent ++ renderUsage f ++ "\n\n"
      ++ (if f.Arguments = "" then ""
          else "ARGUMENTS:\n\n" ++ f.Indent ++ f.Arguments ++ "\n\n")
      ++ (if f.Options = "" then ""
          else "OPTIONS:\n\n" ++ f.Indent ++ f.Options ++ "\n\n")
      ++ (if f.Subcommands = "" then ""
          else "SUBCOMMANDS:\n\n" ++ f.Indent ++ f.Subcommands ++ "\n\n"
            ++ f.Indent ++ hintLine f.Path ++ "\n\n"),
      (if f.Description = "" then ""
       else "DESCRIPTION:\n\n" ++ f.Indent ++ f.Description ++ "\n\n"),
      "\n", ?_, ?_, fun h => if_pos h, fun h => if_neg h⟩
    · simp [renderLongHelp, String.append_assoc]
    · simp [renderLongHelp, renderUsage, String.append_assoc]

/-- Witness for C7: the SUBCOMMANDS block of a concrete field record with
a non-empty Subcommands field, and its disappearance when the field is
emptied. -/
theorem longHelp_sections_witness :
    ∃ a blk b,
      renderLongHelp ⟨"    ", "tool", "", "tag", "", "", "subs", ""⟩ = a ++ blk ++ b ∧
      renderLongHelp ⟨"    ", "tool", "", "tag", "", "", "", ""⟩ = a ++ b ∧
      blk = "SUBCOMMANDS:\n\n" ++ "    " ++ "subs" ++ "\n\n"
        ++ "    " ++ hintLine "tool" ++ "\n\n" := by
  obtain ⟨a, blk, b, h1, h2, _, h4⟩ :=
    (longHelp_sections ⟨"    ", "tool", "", "tag", "", "", "subs", ""⟩).2.2.2.1
  exact ⟨a, blk, b, h1, h2, h4 (by decide)⟩

/-- C10: every successful render starts with a newline character (the
template's leading blank line); a subcommand entry for a subcommand with
zero arguments starts with `prefix + name + " "` — a trailing space
before its newline, inserted by the format string even though the
arg-usage is empty — unlike the top-level usage line, which omits the
space when the arg-usage is empty. -/
theorem longHelp_layout_details :
    (∀ (rootName : String) (root : Command) (path : List String) (s : String),
      LongHelp rootName root path = Except.ok s → ∃ r, s = "\n" ++ r) ∧
    (∀ f : helpFields, f.ArgUsage = "" →
      renderUsage f = f.Path ++ " - " ++ f.Tagline) ∧
    (∀ (cmd : Command) (rootName : String) (path : List String)
      (p : (String × Command) × String),
      p ∈ cmd.Subcommands.zip (subcommandText cmd rootName path) →
      p.1.2.Arguments = [] →
      '\n' ∉ (subPfx rootName path ++ p.1.1).data →
      ∃ rest, p.2 = subPfx rootName path ++ p.1.1 ++ " \n" ++ rest) := by
  refine ⟨?_, ?_, ?_⟩
  · intro rootName root path s h
    unfold LongHelp at h
    cases hg : getCmd path root with
    | error e =>
      rw [hg] at h
      exact absurd h (by simp)
    | ok cmd =>
      rw [hg] at h
      injection h with h'
      exact ⟨_, h'.symm⟩
  · intro f h
    simp [renderUsage, h]
  · intro cmd rootName path p hp hargs hnl
    obtain ⟨hmem, heq⟩ := mem_zip_map hp
    have hu : usageText p.1.2 = "" := by
      unfold usageText
      rw [hargs]
      rfl
    rw [String.data_append] at hnl
    have h1 : '\n' ∉ (subPfx rootName path).data :=
      fun hm => hnl (List.mem_append.mpr (Or.inl hm))
    have h2 : '\n' ∉ p.1.1.data :=
      fun hm => hnl (List.mem_append.mpr (Or.inr hm))
    refine ⟨String.mk (("    " : String).data
        ++ replaceNl p.1.2.Description.data ("    " : String).data) ++ "\n", ?_⟩
    rw [heq, hu]
    apply String.ext
    simp only [indentString, String.data_append, data_mk, data_nl, data_space, data_empty,
      List.nil_append, replaceNl_append, replaceNl_of_not_mem _ _ h1,
      replaceNl_of_not_mem _ _ h2]
    simp [replaceNl, List.append_assoc]

/-- Witness for C10: the concrete subcommand `list` with zero arguments
under root name `tool` and empty path yields the entry
`"tool list \n    l\n"`, whose first line ends in the trailing space. -/
theorem longHelp_layout_details_witness :
    ∃ rest, ("tool list \n    l\n" : String) =
      subPfx "tool" [] ++ "list" ++ " \n" ++ rest := by
  refine longHelp_layout_details.2.2
    (Command.mk "t" "" "" "" "" [] [] [("list", Command.mk "l" "" "" "" "" [] [] [])])
    "tool" []
    (("list", Command.mk "l" "" "" "" "" [] [] []), "tool list \n    l\n")
    ?_ rfl (by decide)
  exact List.mem_singleton.mpr rfl

/-- C1 (divergence witness): for the options `Names=["v","verbose"],
Type="bool"` and `Names=["x"], Type="int"`, the generated first line does
contain `-v, -verbose (bool)`, but the two lines are not column-aligned:
the type column starts at character 13 on the first line and at character
5 on the second (the name column of the shorter option was only padded to
the width of the first pass's partial content `"-v, "`, and the final
name pass is never re-aligned before the types are appended). -/
theorem optionText_misaligned_types :
    optionText [Command.mk "tag" "" "" "" "" []
        [⟨["v", "verbose"], "bool", "first option"⟩, ⟨["x"], "int", "second option"⟩] []] =
      ["-v, -verbose (bool)\n    first option\n",
       "-x   (int)         \n    second option\n"] ∧
    "-v, -verbose (bool)\n    first option\n" =
      "-v, -verbose (bool)" ++ "\n    first option\n" ∧
    ("-v, -verbose (bool)\n    first option\n" : String).data.indexOf '(' = 13 ∧
    ("-x   (int)         \n    second option\n" : String).data.indexOf '(' = 5 := by
  refine ⟨by decide, rfl, by decide, by decide⟩
